/-
  Verification of the daily-sales-report classification pipeline
  (src/screens/test.tsx of todaysalescaliculate).

  Shallow embedding: rows are ordered lists of (header, cell) pairs,
  JS numbers are modelled as rationals, regular-expression tests are
  modelled by an explicit token matcher with the semantics of the
  concrete patterns appearing in the source.
-/
import Mathlib

namespace SalesReport

/-! ## Characters and normalisation -/

/-- Word characters of the JS regex class backslash-w: ASCII letters, digits, underscore. -/
def isWordChar (c : Char) : Bool :=
  c.isAlpha || c.isDigit || c == '_'

/-- Whitespace per the JS regex class backslash-s (also the set used by trim). -/
def isWS (c : Char) : Bool :=
  c == ' ' || c == '\t' || c == '\n' || c == '\r' ||
  c == '\u000B' || c == '\u000C' || c == ' ' || c == ' ' ||
  (0x2000 ≤ c.toNat && c.toNat ≤ 0x200A) ||
  c == ' ' || c == ' ' || c == ' ' || c == ' ' ||
  c == '　' || c == '﻿'

/-- ASCII lowercasing, the fragment of JS toLowerCase relevant to the alias sets. -/
def asciiLower (c : Char) : Char := c.toLower

/-- Characters the JS dot (without the s flag) does not match: line terminators. -/
def notNL (c : Char) : Bool :=
  !(c == '\n' || c == '\r' || c == ' ' || c == ' ')

/-- Embedding of the source function norm: replace no-break spaces by plain
spaces, trim, lowercase. -/
def normChars (l : List Char) : List Char :=
  let repl := l.map (fun c => if c == ' ' then ' ' else c)
  let trimmed := ((repl.dropWhile isWS).reverse.dropWhile isWS).reverse
  trimmed.map asciiLower

/-- String-level wrapper of normChars, embedding the source norm. -/
def norm (s : String) : String := String.mk (normChars s.data)

/-- Lowercased character list of a string, the form the case-insensitive
regex tests operate on. -/
def lowerChars (s : String) : List Char := s.data.map asciiLower

/-- Substring containment on character lists. -/
def infixHere (pat : List Char) : List Char → Bool
  | [] => pat.isPrefixOf []
  | c :: r => pat.isPrefixOf (c :: r) || infixHere pat r

/-- Substring containment, the semantics of testing a regex that is a plain
literal alternative. -/
def containsSub (pat : String) (l : List Char) : Bool := infixHere pat.data l

/-! ## Regex token matcher

A small matcher covering exactly the constructs used by the source
patterns: literals, single-character classes, optional characters,
starred classes (covering dot-star and backslash-s-star), end of input,
and a right word boundary. -/

inductive RTok where
  | lit1 : Char → RTok
  | cls : (Char → Bool) → RTok
  | opt : (Char → Bool) → RTok
  | star : (Char → Bool) → RTok
  | eos : RTok
  | eow : RTok

/-- Literal token sequence of a string. -/
def litToks (s : String) : List RTok := s.data.map RTok.lit1

/-- Fuelled matcher; every recursive call strictly decreases the sum of the
token count and the input length, so the wrapper below supplies enough fuel
for the fuel bound never to be hit. -/
def matchToksF : ℕ → List RTok → List Char → Bool
  | _, [], _ => true
  | 0, _ :: _, _ => false
  | fuel + 1, RTok.lit1 a :: ts, l =>
    match l with
    | [] => false
    | c :: r => a == c && matchToksF fuel ts r
  | fuel + 1, RTok.cls p :: ts, l =>
    match l with
    | [] => false
    | c :: r => p c && matchToksF fuel ts r
  | fuel + 1, RTok.opt p :: ts, l =>
    match l with
    | [] => matchToksF fuel ts []
    | c :: r => matchToksF fuel ts (c :: r) || (p c && matchToksF fuel ts r)
  | fuel + 1, RTok.star p :: ts, l =>
    match l with
    | [] => matchToksF fuel ts []
    | c :: r => matchToksF fuel ts (c :: r) || (p c && matchToksF fuel (RTok.star p :: ts) r)
  | fuel + 1, RTok.eos :: ts, l => l.isEmpty && matchToksF fuel ts l
  | fuel + 1, RTok.eow :: ts, l =>
    match l with
    | [] => matchToksF fuel ts []
    | c :: r => !(isWordChar c) && matchToksF fuel ts (c :: r)

/-- Matches a token sequence against a prefix of the input (the tail after
the match is unconstrained, as in an unanchored regex test). -/
def matchToks (ts : List RTok) (l : List Char) : Bool :=
  matchToksF (ts.length + l.length + 1) ts l

/-- Unanchored search: tries the token sequence at every start position. -/
def searchToks (ts : List RTok) : List Char → Bool
  | [] => matchToks ts []
  | c :: r => matchToks ts (c :: r) || searchToks ts r

/-- Left word-boundary condition for the character preceding a match. -/
def boundaryOkB : Option Char → Bool
  | none => true
  | some c => !(isWordChar c)

/-- Right word-boundary condition for the characters following a match. -/
def afterOkB : List Char → Bool
  | [] => true
  | c :: _ => !(isWordChar c)

/-- Word match at the current position with boundaries on both sides. -/
def wordHere (w : List Char) (prev : Option Char) (l : List Char) : Bool :=
  boundaryOkB prev && w.isPrefixOf l && afterOkB (l.drop w.length)

/-- Search for a whole word (backslash-b on both sides), tracking the
previous character for the left boundary. -/
def searchWord (w : List Char) : Option Char → List Char → Bool
  | prev, [] => wordHere w prev []
  | prev, c :: r => wordHere w prev (c :: r) || searchWord w (some c) r

/-- Search for literal a, then dot-star, then literal b — the shape of
several source patterns. -/
def seqTest (a b : String) (l : List Char) : Bool :=
  searchToks (litToks a ++ [RTok.star notNL] ++ litToks b) l

/-! ## Numeric coercion (source toNum) -/

/-- Decimal digits to a natural number. -/
def digitsToNat (l : List Char) : ℕ := l.foldl (fun n c => 10 * n + (c.toNat - 48)) 0

/-- Reads a decimal number (integer part, optional fraction requiring at
least one digit) starting at the head of the list, which is a digit. -/
def readNum (l : List Char) : ℚ :=
  let ip := l.takeWhile Char.isDigit
  let rest := l.dropWhile Char.isDigit
  let base : ℚ := (digitsToNat ip : ℕ)
  match rest with
  | '.' :: r =>
    let fp := r.takeWhile Char.isDigit
    if fp.isEmpty then base
    else base + (digitsToNat fp : ℚ) / ((10 : ℚ) ^ fp.length)
  | _ => base

/-- Leftmost match of the source pattern for a signed decimal number. -/
def scanNumQ : List Char → Option ℚ
  | [] => none
  | c :: l =>
    if c == '-' then
      match l with
      | d :: _ => if d.isDigit then some (- readNum l) else scanNumQ l
      | [] => none
    else if c.isDigit then some (readNum (c :: l))
    else scanNumQ l

/-- Embedding of the string case of the source toNum: strip commas and
whitespace, take the first signed decimal substring, else 0. -/
def jsToNumText (s : String) : ℚ :=
  let stripped := s.data.filter (fun c => !(c == ',' || isWS c))
  (scanNumQ stripped).getD 0

/-- Text rendering of a rational, modelling JS number-to-string for the
integer case exactly; the non-integer branch is a placeholder no claim
depends on. -/
def ratToText (q : ℚ) : String :=
  if q.den = 1 then toString q.num else toString q.num ++ "/" ++ toString q.den

/-- Cell values of a row: a number, a text, or a missing value. -/
inductive Cell where
  | num (q : ℚ)
  | text (s : String)
  | nullv
deriving DecidableEq

/-- Embedding of the source toNum on cells. -/
def toNum : Cell → ℚ
  | .num q => q
  | .nullv => 0
  | .text s => jsToNumText s

/-- Embedding of the JS coercion String(v or empty) used by firstKeyStr. -/
def cellText : Cell → String
  | .text s => s
  | .nullv => ""
  | .num q => ratToText q

/-- A row: ordered mapping from column header to cell value. -/
abbrev Row := List (String × Cell)

/-- First row entry whose normalised key equals the normalised candidate. -/
def findKey? (row : Row) (cand : String) : Option (String × Cell) :=
  row.find? (fun kv => norm kv.1 == norm cand)

/-- Embedding of the source firstByCandidates: iterate candidates in
order, return the numeric value of the first hit, else 0. -/
def firstByCandidates (row : Row) : List String → ℚ
  | [] => 0
  | cand :: rest =>
    match findKey? row cand with
    | some kv => toNum kv.2
    | none => firstByCandidates row rest

/-- Embedding of the source firstKeyStr: like firstByCandidates but
returning the raw cell text. -/
def firstKeyStr (row : Row) : List String → String
  | [] => ""
  | cand :: rest =>
    match findKey? row cand with
    | some kv => cellText kv.2
    | none => firstKeyStr row rest

/-! ## Concrete regex tests of the source -/

/-- Test of the source pattern isRamenish. -/
def testRamenish (name : String) : Bool :=
  let l := lowerChars name
  containsSub "ラーメン" l || containsSub "らーめん" l || containsSub "麺" l || containsSub "ramen" l

/-- Test of the source pattern isYokubariCurry. -/
def testYokubariCurry (name : String) : Bool :=
  seqTest "よくばり" "カレー" (lowerChars name)

/-- Test of the source pattern isPattyCurry (alternation expanded). -/
def testPattyCurry (name : String) : Bool :=
  let l := lowerChars name
  seqTest "パティ" "カレー" l || seqTest "パティ" "ｶﾚｰ" l ||
  seqTest "ﾊﾟﾃｨ" "カレー" l || seqTest "ﾊﾟﾃｨ" "ｶﾚｰ" l

/-- Test of the source hard-exclusion pattern (gekka followed by course). -/
def testExcluded (name : String) : Bool :=
  seqTest "月花" "コース" (lowerChars name)

/-- Test of the source forced-ambiguity pattern FORCE_AMBIG_SET_HANA_GEKKA. -/
def testForceAmbigHanaGekka (name : String) : Bool :=
  searchToks
    (litToks "ラーメン" ++ [RTok.star notNL, RTok.opt (fun c => c == '「' || c == '『')] ++
     litToks "花" ++ [RTok.opt (fun c => c == '」' || c == '』'), RTok.star isWS] ++
     litToks "or" ++ [RTok.star isWS, RTok.opt (fun c => c == '「' || c == '『')] ++
     litToks "月花" ++ [RTok.opt (fun c => c == '」' || c == '』'), RTok.star notNL] ++
     litToks "セット")
    (lowerChars name)

/-- Test of the plain set-or-setto alternative used by the forced-ambiguity rule. -/
def testSetWord (name : String) : Bool :=
  containsSub "セット" (lowerChars name) || containsSub "set" (lowerChars name)

/-- Test of the set marker of the ramen-variant rule: setto or set with a
right word boundary in the name, or setto in the category. -/
def testSetMarker (name category : String) : Bool :=
  containsSub "セット" (lowerChars name) ||
  searchToks (litToks "set" ++ [RTok.eow]) (lowerChars name) ||
  containsSub "セット" (lowerChars category)

/-- Test of the course-booking rule: course keyword in the name, or a
reservation or course keyword in the category. -/
def testCourse (name category : String) : Bool :=
  containsSub "コース" (lowerChars name) || containsSub "course" (lowerChars name) ||
  containsSub "予約メニュー" (lowerChars category) || containsSub "予約" (lowerChars category) ||
  containsSub "コース" (lowerChars category) || containsSub "course" (lowerChars category)

/-- Test of the source DINNER_PATTERN. -/
def testDinner (name : String) : Bool :=
  containsSub "ディナー" (lowerChars name) || containsSub "dinner" (lowerChars name)

/-- Test of the source CROWDFUND_PATTERN. -/
def testCrowdfund (name : String) : Bool :=
  containsSub "クラファン" (lowerChars name)

/-! ## Ramen variants -/

/-- The fixed closed set of ramen variants (RAMEN_KEYS of the source). -/
inductive RamenKey where
  | hana | tsuki | yuki | gekka | setsugetsu | setsugekka | hanaCoffret | curryRamen | hyouka
deriving DecidableEq

/-- The nine variants in the declaration order of the source RAMEN_KEYS. -/
def ramenKeyList : List RamenKey :=
  [.hana, .tsuki, .yuki, .gekka, .setsugetsu, .setsugekka, .hanaCoffret, .curryRamen, .hyouka]

/-- Display labels (RAMEN_LABELS of the source). -/
def ramenLabel : RamenKey → String
  | .hana => "花"
  | .tsuki => "月（ランチ）"
  | .yuki => "雪（ランチ）"
  | .gekka => "月花"
  | .setsugetsu => "雪月"
  | .setsugekka => "雪月花"
  | .hanaCoffret => "花こふれ"
  | .curryRamen => "カレーラーメン"
  | .hyouka => "氷花"

/-- Display order (RAMEN_DISPLAY_ORDER of the source). -/
def ramenDisplayOrder : List RamenKey :=
  [.yuki, .tsuki, .hana, .gekka, .setsugetsu, .setsugekka, .hanaCoffret, .curryRamen, .hyouka]

/-- Pattern of the setsugekka branch of guessRamenKey. -/
def testSetsugekkaPat (l : List Char) : Bool :=
  containsSub "雪月花" l || containsSub "setsugekka" l

/-- Pattern of the setsugetsu branch of guessRamenKey. -/
def testSetsugetsuPat (l : List Char) : Bool :=
  containsSub "雪月" l || containsSub "setsugetsu" l

/-- Pattern of the gekka branch of guessRamenKey. -/
def testGekkaPat (l : List Char) : Bool :=
  containsSub "月花" l || containsSub "gekka" l

/-- Pattern of the hyouka branch of guessRamenKey. -/
def testHyoukaPat (l : List Char) : Bool :=
  containsSub "氷花" l || containsSub "hyouka" l || containsSub "hyoka" l ||
  searchToks (litToks "ice" ++ [RTok.star isWS] ++ litToks "hana") l

/-- Pattern of the hana-coffret branch of guessRamenKey. -/
def testHanaCoffretPat (l : List Char) : Bool :=
  containsSub "花こふれ" l ||
  searchToks (litToks "hana" ++ [RTok.star isWS] ++ litToks "cof" ++
    [RTok.star (fun c => c == 'f')] ++ litToks "ret") l ||
  searchToks (litToks "hana" ++ [RTok.star isWS] ++ litToks "coffret") l

/-- Pattern of the curry-ramen branch of guessRamenKey. -/
def testCurryRamenPat (l : List Char) : Bool :=
  seqTest "カレー" "ラーメン" l || seqTest "カレー" "らーめん" l || seqTest "カレー" "ramen" l ||
  seqTest "curry" "ラーメン" l || seqTest "curry" "らーめん" l || seqTest "curry" "ramen" l

/-- Pattern of the hana branch of guessRamenKey (anchors and word
boundaries expanded into alternatives). -/
def testHanaPat (l : List Char) : Bool :=
  searchToks (litToks "豆乳ラーメン" ++ [RTok.opt (fun c => c == '「')] ++ litToks "花") l ||
  matchToks (litToks "花」") l || matchToks (litToks "花" ++ [RTok.eos]) l ||
  searchToks ([RTok.cls isWS] ++ litToks "花」") l ||
  searchToks ([RTok.cls isWS] ++ litToks "花" ++ [RTok.eos]) l ||
  searchWord "hana".data none l

/-- Pattern of the tsuki branch of guessRamenKey. -/
def testTsukiPat (l : List Char) : Bool :=
  matchToks (litToks "月」") l || matchToks (litToks "月" ++ [RTok.eos]) l ||
  searchToks ([RTok.cls (fun c => c == '「' || isWS c)] ++ litToks "月」") l ||
  searchToks ([RTok.cls (fun c => c == '「' || isWS c)] ++ litToks "月" ++ [RTok.eos]) l ||
  searchWord "tsuki".data none l

/-- Pattern of the yuki branch of guessRamenKey. -/
def testYukiPat (l : List Char) : Bool :=
  matchToks (litToks "雪」") l || matchToks (litToks "雪" ++ [RTok.eos]) l ||
  searchToks ([RTok.cls (fun c => c == '「' || isWS c)] ++ litToks "雪」") l ||
  searchToks ([RTok.cls (fun c => c == '「' || isWS c)] ++ litToks "雪" ++ [RTok.eos]) l ||
  searchWord "yuki".data none l

/-- Embedding of the source guessRamenKey: the branch order is that of the
source, compound variants before the substrings they contain. -/
def guessRamenKey (raw : String) : Option RamenKey :=
  let l := lowerChars raw
  if testSetsugekkaPat l then some .setsugekka
  else if testSetsugetsuPat l then some .setsugetsu
  else if testGekkaPat l then some .gekka
  else if testHyoukaPat l then some .hyouka
  else if testHanaCoffretPat l then some .hanaCoffret
  else if testCurryRamenPat l then some .curryRamen
  else if testHanaPat l then some .hana
  else if testTsukiPat l then some .tsuki
  else if testYukiPat l then some .yuki
  else none

example : guessRamenKey "雪月花セット" = some RamenKey.setsugekka := by decide
example : guessRamenKey "豆乳ラーメン「花」" = some RamenKey.hana := by decide
example : guessRamenKey "雪月" = some RamenKey.setsugetsu := by decide
example : guessRamenKey "カレーラーメン" = some RamenKey.curryRamen := by decide
example : guessRamenKey "よくばりカレー" = none := by decide
example : testYokubariCurry "よくばりカレー" = true := by decide
example : testExcluded "月花コース（2名様）" = true := by decide
example : testSetMarker "雪月花セット" "" = true := by decide
example : jsToNumText "¥1,234" = 1234 := by decide
example : jsToNumText "abc" = 0 := by decide
example : jsToNumText "-12円" = -12 := by decide

/-! ## Course price and headcount extraction -/

/-- Fuelled scanner behind findPriceNum; every recursive call strictly
shortens the list, so a fuel equal to the length is never exhausted. -/
def findPriceF : ℕ → List Char → Option ℕ
  | _, [] => none
  | 0, _ :: _ => none
  | fuel + 1, c :: r =>
    if c.isDigit then
      let run := c :: r.takeWhile Char.isDigit
      if 4 ≤ run.length then some (digitsToNat (run.take 5))
      else findPriceF fuel (r.dropWhile Char.isDigit)
    else findPriceF fuel r

/-- Leftmost match of the source PRICE_PATTERN: the first maximal digit run
of length at least four, of which at most five digits are taken (greedy). -/
def findPriceNum (l : List Char) : Option ℕ := findPriceF l.length l

/-- Fuelled scanner behind findPeopleNum. -/
def findPeopleF : ℕ → List Char → Option ℕ
  | _, [] => none
  | 0, _ :: _ => none
  | fuel + 1, c :: r =>
    if c.isDigit then
      let run := c :: r.takeWhile Char.isDigit
      let rest := r.dropWhile Char.isDigit
      match rest with
      | d :: _ => if d == '名' then some (digitsToNat run) else findPeopleF fuel rest
      | [] => none
    else findPeopleF fuel r

/-- Leftmost match of the source NAME_PEOPLE_PATTERN: the first maximal
digit run immediately followed by the people character. -/
def findPeopleNum (l : List Char) : Option ℕ := findPeopleF l.length l

/-! ## Payment channels -/

/-- The fixed closed set of payment channels (PaymentKey of the source). -/
inductive PaymentKey where
  | total | card | tablecheck | paypay | cash | funfo
deriving DecidableEq

/-- Channel order (PAYMENT_KEY_ORDER of the source). -/
def paymentKeyOrder : List PaymentKey := [.total, .card, .tablecheck, .paypay, .cash, .funfo]

/-- Channel display labels (PAYMENT_LABELS of the source). -/
def paymentLabel : PaymentKey → String
  | .total => "売上"
  | .card => "クレジット・IC（Square）"
  | .tablecheck => "Table check"
  | .paypay => "PayPay"
  | .cash => "現金"
  | .funfo => "Funfo"

/-- Recognized header aliases per channel (PAYMENT_ALIASES of the source);
for total only the tax-included variants, in priority order. -/
def paymentAliases : PaymentKey → List String
  | .total => ["売上高（税込み）", "売上高 (税込み)", "売上高 (税込)", "税込み売上高", "税込売上"]
  | .card => ["Square", "square", "クレジット・IC", "クレジット・IC（Square）", "クレジット･IC"]
  | .tablecheck => ["Table check", "TableCheck", "テーブルチェック"]
  | .paypay => ["PayPay", "paypay", "Pay Pay"]
  | .cash => ["現金", "cash", "Cash", "CASH"]
  | .funfo => ["Funfo", "fnfo", "FNFO", "Fnfo"]

/-- The EXTRA_PAYMENT_IGNORE list of the source. -/
def extraPaymentIgnore : List String :=
  ["会計数", "組数", "groups", "group count", "客数", "来客数", "人数", "customers"]

/-- Group-count candidate headers (GROUP_CANDS of the source). -/
def groupCands : List String := ["会計数", "組数", "groups", "group count"]

/-- People-count candidate headers (PEOPLE_CANDS of the source). -/
def peopleCands : List String := ["客数", "来客数", "人数", "customers"]

/-- Product-name candidate headers (PRODUCT_NAME_CANDS of the source). -/
def productNameCands : List String := ["商品名", "品名", "メニュー", "商品", "Item Name", "item", "name"]

/-- Quantity candidate headers (PRODUCT_QTY_CANDS of the source). -/
def productQtyCands : List String := ["商品販売数", "販売数", "数量", "個数", "Quantity", "Qty"]

/-- Category candidate headers (PRODUCT_CATEGORY_CANDS of the source). -/
def productCategoryCands : List String := ["カテゴリ", "カテゴリー", "category", "Category"]

/-- All (normalised alias, channel) pairs in insertion order, as built by
buildPaymentAliasMap of the source. -/
def paymentAliasPairs : List (String × PaymentKey) :=
  paymentKeyOrder.flatMap (fun k => (paymentAliases k).map (fun a => (norm a, k)))

/-- Lookup in the alias map; a later insertion overwrites an earlier one,
matching the JS Map semantics. -/
def paymentAliasLookup (nk : String) : Option PaymentKey :=
  paymentAliasPairs.foldl (fun acc p => if p.1 == nk then some p.2 else acc) none

/-- The additional ignored column headers listed inline in makeSummary. -/
def extraIgnoreColumns : List String :=
  ["集計期間", "割引前 売上高", "売上高（税抜き）", "売上高（非課税）", "内消費税（合計）",
   "内消費税（10%標準）", "内消費税（8%軽減）", "売上高（10%標準）", "売上高（8%軽減）",
   "会計単価", "客単価", "商品販売数", "割引合計_1", "会計割引", "割引合計", "割引"]

/-- Contents of the ignoreSet built by makeSummary: all normalised aliases,
the normalised channel labels, and the two explicit ignore lists. -/
def ignoreKeys : List String :=
  paymentAliasPairs.map (fun p => p.1) ++
  paymentKeyOrder.map (fun k => norm (paymentLabel k)) ++
  extraPaymentIgnore.map norm ++
  extraIgnoreColumns.map norm

/-- Membership test in the ignore set. -/
def inIgnore (nk : String) : Bool := decide (nk ∈ ignoreKeys)

/-- An unrecognized payment column: raw header label and amount. -/
structure OtherPayment where
  label : String
  amount : ℚ
deriving DecidableEq

/-- A course-meal booking: display label, unit price, headcount. -/
structure CoursePeopleEntry where
  label : String
  price : ℚ
  count : ℚ
deriving DecidableEq

/-- A product row pending manual resolution: name and remaining quantity. -/
structure UnassignedItem where
  name : String
  count : ℚ
deriving DecidableEq

/-- One step of the payment loop of makeSummary over a row entry: zero
amounts are skipped; a non-total channel alias accumulates into its
channel; otherwise ignored headers are skipped and the rest are recorded
as OtherPayment with the raw header. -/
def payStep (acc : (PaymentKey → ℚ) × List OtherPayment) (kv : String × Cell) :
    (PaymentKey → ℚ) × List OtherPayment :=
  let amount := toNum kv.2
  if amount = 0 then acc
  else
    let nk := norm kv.1
    match paymentAliasLookup nk with
    | some pkey =>
      if pkey = PaymentKey.total then
        if inIgnore nk then acc else (acc.1, acc.2 ++ [⟨kv.1, amount⟩])
      else
        (fun k => if k = pkey then acc.1 k + amount else acc.1 k, acc.2)
    | none =>
      if inIgnore nk then acc else (acc.1, acc.2 ++ [⟨kv.1, amount⟩])

/-- Embedding of the source pickFirst: the first candidate whose resolved
value is positive, else 0. -/
def pickFirst (row : Row) (cands : List String) : ℚ :=
  ((cands.map (fun c => firstByCandidates row [c])).find? (fun v => decide (0 < v))).getD 0

/-- Payment normalisation of makeSummary: the entry loop followed by the
override that adopts only the first positive tax-included total alias. -/
def summarizePayments (dayRow : Row) : (PaymentKey → ℚ) × List OtherPayment :=
  let res := dayRow.foldl payStep (fun _ => 0, [])
  let fixedTotal := pickFirst dayRow (paymentAliases PaymentKey.total)
  (if fixedTotal ≠ 0 then fun k => if k = PaymentKey.total then fixedTotal else res.1 k
   else res.1,
   res.2)

/-! ## Product classification -/

/-- Accumulator of the product loop of makeSummary. -/
structure ProdAcc where
  totals : RamenKey → ℚ
  setTotals : RamenKey → ℚ
  ambiguous : List UnassignedItem
  coursePeople : List CoursePeopleEntry
  yokubariCurry : ℚ
  pattyCurry : ℚ

/-- The empty accumulator (all totals zero, all lists empty). -/
def emptyProdAcc : ProdAcc := ⟨fun _ => 0, fun _ => 0, [], [], 0, 0⟩

/-- Builds the CoursePeopleEntry of the course branch of makeSummary:
price from the first 4-5 digit substring (else 0), headcount from the
first digits-followed-by-mei pattern (else the row quantity), label from
the dinner and crowdfunding patterns. -/
def courseEntryOf (name : String) (count : ℚ) : CoursePeopleEntry :=
  let price : ℚ := match findPriceNum name.data with | some n => (n : ℚ) | none => 0
  let peopleCount : ℚ := match findPeopleNum name.data with | some n => (n : ℚ) | none => count
  let label :=
    if testDinner name then "ディナー"
    else if testCrowdfund name then "クラファンコース"
    else "コース"
  ⟨label, price, peopleCount⟩

/-- One iteration of the product loop of makeSummary, in the rule order of
the source: quantity skip, hard exclusion, forced ambiguity, two side
dishes, course booking, ramen variant (set or plain), ramen-ish fallback. -/
def stepProduct (acc : ProdAcc) (row : Row) : ProdAcc :=
  let name := firstKeyStr row productNameCands
  let count := firstByCandidates row productQtyCands
  if count = 0 then acc
  else
    let category := firstKeyStr row productCategoryCands
    if testExcluded name then acc
    else if testForceAmbigHanaGekka name && testSetWord name then
      { acc with ambiguous := acc.ambiguous ++ [⟨name, count⟩] }
    else if testYokubariCurry name then { acc with yokubariCurry := acc.yokubariCurry + count }
    else if testPattyCurry name then { acc with pattyCurry := acc.pattyCurry + count }
    else if testCourse name category then
      { acc with coursePeople := acc.coursePeople ++ [courseEntryOf name count] }
    else
      match guessRamenKey name with
      | some key =>
        if testSetMarker name category then
          { acc with setTotals := fun k => if k = key then acc.setTotals k + count else acc.setTotals k }
        else
          { acc with totals := fun k => if k = key then acc.totals k + count else acc.totals k }
      | none =>
        if testRamenish name then { acc with ambiguous := acc.ambiguous ++ [⟨name, count⟩] }
        else acc

/-! ## The whole classification pass -/

/-- Result of one classification pass of makeSummary (the date resolution,
which no claim concerns, is supplied by the caller as resolvedDate). -/
structure ClassifyOutcome where
  payments : PaymentKey → ℚ
  otherPayments : List OtherPayment
  groups : ℚ
  people : ℚ
  totals : RamenKey → ℚ
  setTotals : RamenKey → ℚ
  courseTotals : RamenKey → ℚ
  coursePeople : List CoursePeopleEntry
  ambiguous : List UnassignedItem
  yokubariCurry : ℚ
  pattyCurry : ℚ

/-- The classification core of makeSummary: fails on an empty payment
dataset with the message of the source, otherwise classifies the first
payment row and every product row. -/
def classifyRows (productRows statsRows : List Row) : Except String ClassifyOutcome :=
  match statsRows with
  | [] => .error "売上詳細CSVに行がありません。"
  | dayRow :: _ =>
    let pay := summarizePayments dayRow
    let groups := firstByCandidates dayRow groupCands
    let people := firstByCandidates dayRow peopleCands
    let acc := productRows.foldl stepProduct emptyProdAcc
    .ok
      { payments := pay.1
        otherPayments := pay.2
        groups := groups
        people := people
        totals := acc.totals
        setTotals := acc.setTotals
        courseTotals := fun _ => 0
        coursePeople := acc.coursePeople
        ambiguous := acc.ambiguous
        yokubariCurry := acc.yokubariCurry
        pattyCurry := acc.pattyCurry }

/-! ## Application state and manual reassignment -/

/-- The meta part of the screen state (MetaState of the source). -/
structure MetaState where
  dateISO : String
  payments : PaymentKey → ℚ
  otherPayments : List OtherPayment
  groups : ℚ
  people : ℚ
  yokubariCurry : ℚ
  pattyCurry : ℚ

/-- The full report state held by the screen: unassigned list, the three
ramen total maps, course bookings, and the meta state. -/
structure AppState where
  unassigned : List UnassignedItem
  ramenTotals : RamenKey → ℚ
  ramenSetTotals : RamenKey → ℚ
  ramenCourseTotals : RamenKey → ℚ
  coursePeopleEntries : List CoursePeopleEntry
  meta : MetaState

/-- State update performed by makeSummary: on a classification error the
state is left untouched (the source only shows an alert); on success every
aggregate field is replaced. -/
def applySummary (st : AppState) (productRows statsRows : List Row) (resolvedDate : String) :
    AppState :=
  match classifyRows productRows statsRows with
  | .error _ => st
  | .ok r =>
    { unassigned := r.ambiguous
      ramenTotals := r.totals
      ramenSetTotals := r.setTotals
      ramenCourseTotals := r.courseTotals
      coursePeopleEntries := r.coursePeople
      meta :=
        { dateISO := resolvedDate
          payments := r.payments
          otherPayments := r.otherPayments
          groups := r.groups
          people := r.people
          yokubariCurry := r.yokubariCurry
          pattyCurry := r.pattyCurry } }

/-- Embedding of applyAssign: move part of an unassigned item into a
variant plain or set count; missing index and non-positive clamped
quantities are no-ops. -/
def applyAssign (st : AppState) (index : ℕ) (key : RamenKey) (asSet : Bool)
    (amount : Option ℚ) : AppState :=
  match st.unassigned[index]? with
  | none => st
  | some item =>
    let requested := amount.getD item.count
    let numeric : ℚ := ((⌊requested⌋ : ℤ) : ℚ)
    let qty := max 0 (min numeric item.count)
    if qty ≤ 0 then st
    else
      let st1 :=
        if asSet then
          { st with ramenSetTotals :=
              fun k => if k = key then st.ramenSetTotals k + qty else st.ramenSetTotals k }
        else
          { st with ramenTotals :=
              fun k => if k = key then st.ramenTotals k + qty else st.ramenTotals k }
      if item.count ≤ qty then { st1 with unassigned := st.unassigned.eraseIdx index }
      else { st1 with unassigned := st.unassigned.set index ⟨item.name, item.count - qty⟩ }

/-- Embedding of applyAssignCourse: like applyAssign but into the course
count of the variant. -/
def applyAssignCourse (st : AppState) (index : ℕ) (key : RamenKey)
    (amount : Option ℚ) : AppState :=
  match st.unassigned[index]? with
  | none => st
  | some item =>
    let requested := amount.getD item.count
    let numeric : ℚ := ((⌊requested⌋ : ℤ) : ℚ)
    let qty := max 0 (min numeric item.count)
    if qty ≤ 0 then st
    else
      let st1 :=
        { st with ramenCourseTotals :=
            fun k => if k = key then st.ramenCourseTotals k + qty else st.ramenCourseTotals k }
      if item.count ≤ qty then { st1 with unassigned := st.unassigned.eraseIdx index }
      else { st1 with unassigned := st.unassigned.set index ⟨item.name, item.count - qty⟩ }

/-- Embedding of assignAllUnassignedToHanaSet: empty list is a no-op,
otherwise the summed remaining quantities are added to the hana set count
and the unassigned list is cleared. -/
def assignAllUnassignedToHanaSet (st : AppState) : AppState :=
  if st.unassigned.isEmpty then st
  else
    let addCount := st.unassigned.foldl (fun s it => s + it.count) 0
    { st with
      ramenSetTotals :=
        fun k => if k = RamenKey.hana then st.ramenSetTotals k + addCount else st.ramenSetTotals k
      unassigned := [] }

/-! ## Date label

The source builds the label through a JS Date pinned to offset +09:00 and
reads it back through local-time getters; the environment is modelled as
Japan Standard Time, under which the displayed month, day and weekday are
those of the parsed calendar date. An unparsable date produces the NaN
label a JS Invalid Date renders to. -/

/-- Gregorian leap-year test. -/
def isLeapYear (y : ℤ) : Bool := (y % 4 == 0 && y % 100 != 0) || y % 400 == 0

/-- Days in a month of the proleptic Gregorian calendar. -/
def daysInMonth (y m : ℤ) : ℤ :=
  if m = 2 then (if isLeapYear y then 29 else 28)
  else if m = 4 ∨ m = 6 ∨ m = 9 ∨ m = 11 then 30
  else 31

/-- Strict parse of a ten-character ISO calendar date with range checks,
the validation a JS Date applies to the appended ISO string. -/
def parseISODate (s : String) : Option (ℤ × ℤ × ℤ) :=
  match s.data with
  | [y1, y2, y3, y4, h1, m1, m2, h2, d1, d2] =>
    if y1.isDigit && y2.isDigit && y3.isDigit && y4.isDigit && h1 == '-' &&
       m1.isDigit && m2.isDigit && h2 == '-' && d1.isDigit && d2.isDigit then
      let y : ℤ := (digitsToNat [y1, y2, y3, y4] : ℕ)
      let m : ℤ := (digitsToNat [m1, m2] : ℕ)
      let d : ℤ := (digitsToNat [d1, d2] : ℕ)
      if 1 ≤ m ∧ m ≤ 12 ∧ 1 ≤ d ∧ d ≤ daysInMonth y m then some (y, m, d) else none
    else none
  | _ => none

/-- Days since the epoch of a civil date (standard days-from-civil
computation, floor divisions). -/
def daysFromCivil (y m d : ℤ) : ℤ :=
  let y2 := if m ≤ 2 then y - 1 else y
  let era := Int.fdiv y2 400
  let yoe := y2 - era * 400
  let mp := (m + 9) % 12
  let doy := (153 * mp + 2) / 5 + d - 1
  let doe := yoe * 365 + yoe / 4 - yoe / 100 + doy
  era * 146097 + doe - 719468

/-- Weekday names in the getDay order of the source. -/
def weekdayNames : List String :=
  ["日曜日", "月曜日", "火曜日", "水曜日", "木曜日", "金曜日", "土曜日"]

/-- Embedding of jpDateLabel under a JST environment. -/
def jpDateLabel (isoDate : String) : String :=
  match parseISODate isoDate with
  | some (y, m, d) =>
    let wd := ((daysFromCivil y m d + 4) % 7).toNat
    let wname := (weekdayNames.get? wd).getD ""
    toString m ++ "月" ++ toString d ++ "日（" ++ wname ++ "）"
  | none => "NaN月NaN日（undefined）"

example : jpDateLabel "2024-06-01" = "6月1日（土曜日）" := by decide
example : jpDateLabel "garbage" = "NaN月NaN日（undefined）" := by decide

/-! ## Currency and number formatting -/

/-- Comma grouping of a reversed digit list, three digits at a time. -/
def groupRev : List Char → List Char
  | a :: b :: c :: d :: rest => a :: b :: c :: ',' :: groupRev (d :: rest)
  | l => l

/-- Decimal rendering of a natural number with thousands separators. -/
def groupDigits (n : ℕ) : String :=
  String.mk ((groupRev (toString n).data.reverse).reverse)

/-- Up-to-three rounded fraction digits with trailing zeros removed. -/
def fracDigitsText (m : ℕ) : String :=
  let digs := (toString (1000 + m)).data.drop 1
  String.mk ((digs.reverse.dropWhile (fun c => c == '0')).reverse)

/-- Model of toLocaleString for the ja-JP locale: exact for integers
(sign, thousands separators); non-integers are shown with at most three
rounded fraction digits. No claim depends on the fractional branch. -/
def ratCurrencyText (q : ℚ) : String :=
  let a : ℚ := |q|
  let ip : ℤ := ⌊a⌋
  let m : ℤ := round ((a - (ip : ℚ)) * 1000)
  let ip2 : ℤ := if m = 1000 then ip + 1 else ip
  let m2 : ℤ := if m = 1000 then 0 else m
  (if q < 0 then "-" else "") ++ groupDigits ip2.toNat ++
  (if m2 = 0 then "" else "." ++ fracDigitsText m2.toNat)

/-- Embedding of jpCurrency: yen sign plus locale-formatted amount. -/
def jpCurrency (q : ℚ) : String := "¥" ++ ratCurrencyText q

/-! ## Report renderer -/

/-- Embedding of pushBlank of renderOutput: append one empty line when the
list is non-empty and does not already end in one. -/
def pushBlankL (l : List String) : List String :=
  match l.getLast? with
  | none => l
  | some last => if last = "" then l else l ++ [""]

/-- Payment section lines: channels with positive totals in the fixed
order, then other payments with positive amounts in insertion order. -/
def paymentLinesOf (meta : MetaState) : List String :=
  paymentKeyOrder.filterMap (fun key =>
    if 0 < meta.payments key then
      some (paymentLabel key ++ "　" ++ jpCurrency (meta.payments key))
    else none) ++
  meta.otherPayments.filterMap (fun op =>
    if 0 < op.amount then some (op.label ++ "　" ++ jpCurrency op.amount) else none)

/-- Group and people count lines, only the positive ones. -/
def gpLinesOf (meta : MetaState) : List String :=
  (if 0 < meta.groups then [ratToText meta.groups ++ "組"] else []) ++
  (if 0 < meta.people then [ratToText meta.people ++ "人"] else [])

/-- Combined plain, set and course count over all variants. -/
def ramenTotalCountOf (t s c : RamenKey → ℚ) : ℚ :=
  ramenKeyList.foldl (fun acc k => acc + t k + s k + c k) 0

/-- One variant line of the ramen section, omitted if its combined count
is not positive. -/
def ramenVariantLine (t s c : RamenKey → ℚ) (key : RamenKey) : Option String :=
  let total := t key + s key + c key
  if total ≤ 0 then none
  else
    let noteParts :=
      (if 0 < s key then ["+セット" ++ ratToText (s key) ++ "杯"] else []) ++
      (if 0 < c key then ["+コース" ++ ratToText (c key) ++ "杯"] else [])
    let note := if noteParts.isEmpty then "" else "(" ++ String.intercalate ", " noteParts ++ ")"
    some ("・" ++ ramenLabel key ++ "　" ++ ratToText total ++ "杯" ++ note)

/-- Ramen section content: grand-total header plus the variant lines in
display order (the renderer guards this list by the grand total). -/
def ramenLinesOf (t s c : RamenKey → ℚ) : List String :=
  ("ラーメン  " ++ ratToText (ramenTotalCountOf t s c) ++ "杯") ::
  ramenDisplayOrder.filterMap (ramenVariantLine t s c)

/-- Side-dish lines, only the positive ones. -/
def sideLinesOf (meta : MetaState) : List String :=
  (if 0 < meta.yokubariCurry then ["よくばりカレー　" ++ ratToText meta.yokubariCurry ++ "杯"] else []) ++
  (if 0 < meta.pattyCurry then ["パティカレー　" ++ ratToText meta.pattyCurry ++ "杯"] else [])

/-- Course-booking lines: entries with positive headcount, price shown
only when positive. -/
def courseLinesOf (cp : List CoursePeopleEntry) : List String :=
  cp.filterMap (fun e =>
    if e.count ≤ 0 then none
    else some ((if 0 < e.price then e.label ++ ratToText e.price else e.label) ++
      " " ++ ratToText e.count ++ "名"))

/-- The unassigned-count notice line. -/
def unassignedNoticeOf (uc : ℕ) : String :=
  "（要振り分け候補：未計上 " ++ toString uc ++ " 件）"

/-- One guarded section emission of renderOutput: nothing when the section
has no lines, otherwise one separating blank then the lines. -/
def renderStage (acc sec : List String) : List String :=
  if sec.isEmpty then acc else pushBlankL acc ++ sec

/-- Embedding of renderOutput as the list of emitted lines, in the exact
section order and with the exact blank-line pushes of the source. -/
def renderLines (meta : MetaState) (t s c : RamenKey → ℚ)
    (cp : List CoursePeopleEntry) (uc : ℕ) : List String :=
  let l1 := [jpDateLabel meta.dateISO]
  let l2 := renderStage l1 (paymentLinesOf meta)
  let l3 := renderStage l2 (gpLinesOf meta)
  let l4 := if 0 < ramenTotalCountOf t s c then pushBlankL l3 ++ ramenLinesOf t s c else l3
  let l5 := renderStage l4 (sideLinesOf meta)
  let l6 := if cp.isEmpty then l5 else pushBlankL l5 ++ courseLinesOf cp
  if 0 < uc then pushBlankL l6 ++ [unassignedNoticeOf uc] else l6

/-- Embedding of renderOutput: the emitted lines joined by newlines. -/
def renderOutput (meta : MetaState) (t s c : RamenKey → ℚ)
    (cp : List CoursePeopleEntry) (uc : ℕ) : String :=
  String.intercalate "\n" (renderLines meta t s c cp uc)

/-- Absence of two adjacent blank lines. -/
def noDoubleBlank : List String → Bool
  | a :: b :: r => (!(a == "") || !(b == "")) && noDoubleBlank (b :: r)
  | _ => true

/-- Rendering of a section list per the specification words: each section
emitted only if it has content, adjacent emitted sections separated by
exactly one blank line, no leading separator. -/
def joinSectionsSpec (secs : List (List String)) : List String :=
  secs.foldl (fun acc sec =>
    if sec.isEmpty then acc
    else if acc.isEmpty then sec
    else acc ++ [""] ++ sec) []

/-! ## Concrete states used by witnesses and counterexamples -/

/-- The all-zero totals map. -/
def zeroT : RamenKey → ℚ := fun _ => 0

/-- A meta state with no payments or counts. -/
def sampleMeta : MetaState :=
  { dateISO := "2024-06-01", payments := fun _ => 0, otherPayments := [],
    groups := 0, people := 0, yokubariCurry := 0, pattyCurry := 0 }

/-- A state holding one unassigned item of quantity three. -/
def sampleState : AppState :=
  { unassigned := [⟨"謎ラーメン", 3⟩], ramenTotals := fun _ => 0,
    ramenSetTotals := fun _ => 0, ramenCourseTotals := fun _ => 0,
    coursePeopleEntries := [], meta := sampleMeta }

/-- A state with an empty unassigned list. -/
def emptyListState : AppState :=
  { unassigned := [], ramenTotals := fun _ => 0,
    ramenSetTotals := fun _ => 0, ramenCourseTotals := fun _ => 0,
    coursePeopleEntries := [], meta := sampleMeta }

/-- The clamped quantity a reassignment moves: requested amount (defaulting
to the whole remaining quantity), floored, clamped to the interval from
zero to the remaining quantity. -/
def clampedQty (amount : Option ℚ) (remaining : ℚ) : ℚ :=
  max 0 (min (((⌊amount.getD remaining⌋ : ℤ) : ℚ)) remaining)

/-! ## Claim theorems -/

/-- C10: applyAssign and applyAssignCourse with an index that refers to no
existing unassigned item are total no-ops: the whole state is returned
unchanged and no error is raised. -/
theorem reassign_out_of_bounds_noop (st : AppState) (index : ℕ) (key : RamenKey)
    (asSet : Bool) (amount : Option ℚ)
    (h : st.unassigned[index]? = none) :
    applyAssign st index key asSet amount = st ∧
    applyAssignCourse st index key amount = st := by
  constructor <;> simp [applyAssign, applyAssignCourse, h]

/-- Witness for C10 at a concrete state and an out-of-range index. -/
theorem reassign_out_of_bounds_noop_witness :
    applyAssign sampleState 3 RamenKey.hana true (some 2) = sampleState ∧
    applyAssignCourse sampleState 3 RamenKey.hana (some 2) = sampleState :=
  reassign_out_of_bounds_noop sampleState 3 RamenKey.hana true (some 2) (by decide)

/-- C8: with an empty payment-summary dataset, classification fails with a
human-readable error and the previously held state is left entirely
unchanged, whatever the product rows contained. -/
theorem empty_stats_aborts (st : AppState) (productRows statsRows : List Row)
    (resolvedDate : String) (h : statsRows = []) :
    classifyRows productRows statsRows = .error "売上詳細CSVに行がありません。" ∧
    applySummary st productRows statsRows resolvedDate = st := by
  subst h
  constructor <;> simp [classifyRows, applySummary]

/-- Witness for C8 at a concrete state and a non-trivial product file. -/
theorem empty_stats_aborts_witness :
    applySummary sampleState [[("商品名", Cell.text "花"), ("数量", Cell.num 2)]] [] "2024-06-01"
      = sampleState :=
  (empty_stats_aborts sampleState
    [[("商品名", Cell.text "花"), ("数量", Cell.num 2)]] [] "2024-06-01" rfl).2

/-- C6: bulk assignment on a non-empty unassigned list adds the sum of all
remaining quantities to the hana set count, changes no other total, and
clears the list; on an empty list it changes nothing. -/
theorem bulk_assign_all (st : AppState) :
    (st.unassigned = [] → assignAllUnassignedToHanaSet st = st) ∧
    (st.unassigned ≠ [] →
      (assignAllUnassignedToHanaSet st).unassigned = [] ∧
      (assignAllUnassignedToHanaSet st).ramenSetTotals RamenKey.hana =
        st.ramenSetTotals RamenKey.hana +
          st.unassigned.foldl (fun s it => s + it.count) 0 ∧
      (∀ k, k ≠ RamenKey.hana →
        (assignAllUnassignedToHanaSet st).ramenSetTotals k = st.ramenSetTotals k) ∧
      (assignAllUnassignedToHanaSet st).ramenTotals = st.ramenTotals ∧
      (assignAllUnassignedToHanaSet st).ramenCourseTotals = st.ramenCourseTotals ∧
      (assignAllUnassignedToHanaSet st).coursePeopleEntries = st.coursePeopleEntries ∧
      (assignAllUnassignedToHanaSet st).meta = st.meta) := by
  constructor
  · intro h
    simp [assignAllUnassignedToHanaSet, h]
  · intro h
    have hne : st.unassigned.isEmpty = false := by
      cases hu : st.unassigned with
      | nil => exact absurd hu h
      | cons a l => rfl
    refine ⟨?_, ?_, ?_, ?_, ?_, ?_, ?_⟩ <;>
      simp [assignAllUnassignedToHanaSet, hne]
    intro k hk
    simp [hk]

/-- Witness for C6: both the non-empty and the empty branch at concrete
states. -/
theorem bulk_assign_all_witness :
    (assignAllUnassignedToHanaSet sampleState).unassigned = [] ∧
    assignAllUnassignedToHanaSet emptyListState = emptyListState :=
  ⟨((bulk_assign_all sampleState).2 (by decide)).1,
   (bulk_assign_all emptyListState).1 rfl⟩

/-- C3: a reassignment on an existing unassigned item moves the requested
amount floored and clamped to the interval from zero to the remaining
quantity; a non-positive clamped amount changes nothing; otherwise the
moved amount never exceeds the remaining quantity, the item is removed
exactly when the whole remainder moves (else decremented), and the same
amount is added to the chosen plain or set count, all other state parts
unchanged. -/
theorem reassign_clamps_and_moves (st : AppState) (index : ℕ) (key : RamenKey)
    (asSet : Bool) (amount : Option ℚ) (item : UnassignedItem)
    (h : st.unassigned[index]? = some item) :
    (clampedQty amount item.count ≤ 0 → applyAssign st index key asSet amount = st) ∧
    (0 < clampedQty amount item.count →
      clampedQty amount item.count ≤ item.count ∧
      (applyAssign st index key asSet amount).unassigned =
        (if item.count ≤ clampedQty amount item.count then st.unassigned.eraseIdx index
         else st.unassigned.set index ⟨item.name, item.count - clampedQty amount item.count⟩) ∧
      (asSet = true →
        (applyAssign st index key asSet amount).ramenSetTotals =
          (fun k => if k = key then st.ramenSetTotals k + clampedQty amount item.count
                    else st.ramenSetTotals k) ∧
        (applyAssign st index key asSet amount).ramenTotals = st.ramenTotals) ∧
      (asSet = false →
        (applyAssign st index key asSet amount).ramenTotals =
          (fun k => if k = key then st.ramenTotals k + clampedQty amount item.count
                    else st.ramenTotals k) ∧
        (applyAssign st index key asSet amount).ramenSetTotals = st.ramenSetTotals) ∧
      (applyAssign st index key asSet amount).ramenCourseTotals = st.ramenCourseTotals ∧
      (applyAssign st index key asSet amount).coursePeopleEntries = st.coursePeopleEntries ∧
      (applyAssign st index key asSet amount).meta = st.meta) := by
  have happ : applyAssign st index key asSet amount =
      (if clampedQty amount item.count ≤ 0 then st
       else
         let st1 :=
           if asSet then
             { st with ramenSetTotals :=
                 fun k => if k = key then st.ramenSetTotals k + clampedQty amount item.count
                          else st.ramenSetTotals k }
           else
             { st with ramenTotals :=
                 fun k => if k = key then st.ramenTotals k + clampedQty amount item.count
                          else st.ramenTotals k }
         if item.count ≤ clampedQty amount item.count then
           { st1 with unassigned := st.unassigned.eraseIdx index }
         else { st1 with unassigned := st.unassigned.set index ⟨item.name, item.count - clampedQty amount item.count⟩ }) := by
    simp only [applyAssign, h, clampedQty]
  constructor
  · intro hle
    rw [happ, if_pos hle]
  · intro hpos
    have hmin : 0 < min (((⌊amount.getD item.count⌋ : ℤ) : ℚ)) item.count := by
      by_contra hn
      push_neg at hn
      have hz : clampedQty amount item.count = 0 := by
        unfold clampedQty
        exact max_eq_left hn
      rw [hz] at hpos
      exact lt_irrefl 0 hpos
    have hqeq : clampedQty amount item.count =
        min (((⌊amount.getD item.count⌋ : ℤ) : ℚ)) item.count := by
      simp [clampedQty, max_eq_right hmin.le]
    have hle' : clampedQty amount item.count ≤ item.count := by
      rw [hqeq]; exact min_le_right _ _
    rw [happ, if_neg (not_le.mpr hpos)]
    refine ⟨hle', ?_, ?_, ?_, ?_, ?_, ?_⟩ <;>
      rcases asSet with _ | _ <;>
      by_cases hic : item.count ≤ clampedQty amount item.count <;>
      simp [hic]

/-- Witness for C3: moving two of three units of a concrete unassigned
item into the hana plain count leaves one unit behind. -/
theorem reassign_clamps_and_moves_witness :
    (applyAssign sampleState 0 RamenKey.hana false (some 2)).unassigned =
      [⟨"謎ラーメン", 1⟩] := by
  have h := reassign_clamps_and_moves sampleState 0 RamenKey.hana false (some 2)
    ⟨"謎ラーメン", 3⟩ (by decide)
  have hq : clampedQty (some 2) (3 : ℚ) = 2 := by
    norm_num [clampedQty]
  have h2 := (h.2 (by rw [hq]; norm_num)).2.1
  rw [h2]
  norm_num [hq, sampleState]

/-! ## Payment claim theorems -/

/-- The entry loop of the payment classifier never writes the total
channel. -/
theorem payStep_total_eq (acc : (PaymentKey → ℚ) × List OtherPayment) (kv : String × Cell) :
    (payStep acc kv).1 PaymentKey.total = acc.1 PaymentKey.total := by
  unfold payStep
  by_cases hz : toNum kv.2 = 0
  · simp [hz]
  · simp only [hz, if_false]
    cases hl : paymentAliasLookup (norm kv.1) with
    | none => by_cases hi : inIgnore (norm kv.1) <;> simp [hi]
    | some pkey =>
      by_cases hp : pkey = PaymentKey.total
      · subst hp
        by_cases hi : inIgnore (norm kv.1) <;> simp [hi]
      · have hne : PaymentKey.total ≠ pkey := fun he => hp he.symm
        simp [hp, hne]

/-- Folding the payment loop preserves the total channel of the
accumulator. -/
theorem foldl_payStep_total (rows : List (String × Cell)) :
    ∀ acc, ((rows.foldl payStep acc).1) PaymentKey.total = acc.1 PaymentKey.total := by
  induction rows with
  | nil => intro acc; rfl
  | cons kv rest ih =>
    intro acc
    rw [List.foldl_cons, ih, payStep_total_eq]

/-- Value of the first total alias whose resolved value in the row is
positive, 0 when no alias has a positive value — the wording of the claim. -/
def firstPositiveTotalAliasSpec (row : Row) : ℚ :=
  match (paymentAliases PaymentKey.total).find?
      (fun c => decide (0 < firstByCandidates row [c])) with
  | some c => firstByCandidates row [c]
  | none => 0

/-- pickFirst computes exactly the first-positive-candidate value. -/
theorem pickFirst_eq_firstPositive (row : Row) (cands : List String) :
    pickFirst row cands =
      match cands.find? (fun c => decide (0 < firstByCandidates row [c])) with
      | some c => firstByCandidates row [c]
      | none => 0 := by
  unfold pickFirst
  rw [List.find?_map]
  cases h : cands.find? (fun c => decide (0 < firstByCandidates row [c])) with
  | none => simp [Function.comp_def, h]
  | some c => simp [Function.comp_def, h]

/-- C1: for every payment-summary row, the reported total equals the value
of the first alias in the total priority list whose resolved value in the
row is positive (0 when none is), and is therefore never a sum across
several total-aliased columns. -/
theorem total_is_first_positive_alias (row : Row) :
    (summarizePayments row).1 PaymentKey.total = firstPositiveTotalAliasSpec row := by
  have hpick := pickFirst_eq_firstPositive row (paymentAliases PaymentKey.total)
  unfold summarizePayments
  by_cases hf : pickFirst row (paymentAliases PaymentKey.total) = 0
  · simp only [hf, ne_eq, not_true_eq_false, if_false]
    rw [foldl_payStep_total]
    unfold firstPositiveTotalAliasSpec
    rw [hf] at hpick
    exact hpick
  · simp only [ne_eq, hf, not_false_eq_true, if_true, if_pos rfl]
    unfold firstPositiveTotalAliasSpec
    exact hpick

/-- Per-column recording condition of the amended C5: a column is recorded
as an OtherPayment exactly when its value is nonzero, its normalised
header matches no channel alias, and it is not in the ignore denylist;
the label is the raw header. -/
def otherPaymentEntrySpec (kv : String × Cell) : Option OtherPayment :=
  let amount := toNum kv.2
  if amount ≠ 0 ∧ paymentAliasLookup (norm kv.1) = none ∧ inIgnore (norm kv.1) = false then
    some ⟨kv.1, amount⟩
  else none

/-- The other-payments list the amended C5 predicts: recorded columns in
insertion order of first encounter. -/
def otherPaymentsSpec (row : Row) : List OtherPayment :=
  row.filterMap otherPaymentEntrySpec

/-- A membership consequence of a successful alias lookup. -/
theorem lookup_mem_of_some (nk : String) (k : PaymentKey) :
    ∀ (pairs : List (String × PaymentKey)) (acc : Option PaymentKey),
      pairs.foldl (fun a p => if p.1 == nk then some p.2 else a) acc = some k →
      (∃ p ∈ pairs, p.1 = nk) ∨ acc = some k := by
  intro pairs
  induction pairs with
  | nil => intro acc h; exact Or.inr h
  | cons q rest ih =>
    intro acc h
    rw [List.foldl_cons] at h
    rcases ih _ h with h1 | h2
    · rcases h1 with ⟨p, hp, he⟩
      exact Or.inl ⟨p, List.mem_cons_of_mem _ hp, he⟩
    · have h3 : (if (q.1 == nk) = true then some q.2 else acc) = some k := h2
      by_cases hq : (q.1 == nk) = true
      · exact Or.inl ⟨q, List.mem_cons_self _ _, by simpa using hq⟩
      · right
        rwa [if_neg hq] at h3

/-- Every header recognised as a channel alias is in the ignore set. -/
theorem alias_in_ignore (nk : String) (k : PaymentKey)
    (h : paymentAliasLookup nk = some k) : inIgnore nk = true := by
  unfold paymentAliasLookup at h
  rcases lookup_mem_of_some nk k paymentAliasPairs none h with ⟨p, hp, he⟩ | hcontra
  · unfold inIgnore
    rw [decide_eq_true_iff]
    unfold ignoreKeys
    have hm : nk ∈ paymentAliasPairs.map (fun p => p.1) :=
      he ▸ List.mem_map_of_mem (fun p => p.1) hp
    exact List.mem_append.mpr (Or.inl (List.mem_append.mpr (Or.inl
      (List.mem_append.mpr (Or.inl hm)))))
  · exact Option.noConfusion hcontra

/-- One payment-loop step appends exactly the entries the per-column
condition predicts. -/
theorem payStep_snd (acc : (PaymentKey → ℚ) × List OtherPayment) (kv : String × Cell) :
    (payStep acc kv).2 = acc.2 ++ (otherPaymentEntrySpec kv).toList := by
  unfold payStep otherPaymentEntrySpec
  by_cases hz : toNum kv.2 = 0
  · simp [hz]
  · simp only [hz, if_false]
    cases hl : paymentAliasLookup (norm kv.1) with
    | none =>
      by_cases hi : inIgnore (norm kv.1)
      · simp [hl, hi, hz]
      · simp [hl, hi, hz, eq_false_of_ne_true hi]
    | some pkey =>
      have hig := alias_in_ignore (norm kv.1) pkey hl
      by_cases hp : pkey = PaymentKey.total
      · subst hp
        simp [hl, hig, hz]
      · simp [hl, hig, hp, hz]

/-- Folding the payment loop appends exactly the predicted entries. -/
theorem foldl_payStep_snd (rows : List (String × Cell)) :
    ∀ acc, (rows.foldl payStep acc).2 = acc.2 ++ otherPaymentsSpec rows := by
  induction rows with
  | nil => intro acc; simp [otherPaymentsSpec]
  | cons kv rest ih =>
    intro acc
    rw [List.foldl_cons, ih, payStep_snd]
    unfold otherPaymentsSpec
    rw [List.filterMap_cons]
    cases otherPaymentEntrySpec kv <;> simp

/-- Amended C5: an OtherPayment entry is recorded exactly for columns with
a nonzero value whose normalised header matches no channel alias and is
not in the ignore denylist, with the raw header as label, in insertion
order of first encounter. -/
theorem other_payments_characterisation (row : Row) :
    (summarizePayments row).2 = otherPaymentsSpec row := by
  unfold summarizePayments
  simpa using foldl_payStep_snd row (fun _ => 0, [])

/-- Counterexample to C5 as stated: a column with a negative value that
matches no alias and is not in the denylist is still recorded as an
OtherPayment, so entries are not recorded only for positive columns. -/
theorem negative_other_payment_recorded :
    (summarizePayments [("謎の支払", Cell.num (-5))]).2 = [⟨"謎の支払", -5⟩] ∧
    ¬ (0 < (-5 : ℚ)) := by
  constructor
  · decide
  · decide

example :
    (summarizePayments
      [("売上高（税込み）", Cell.text "¥1,234"), ("PayPay", Cell.num 500),
       ("組数", Cell.num 10)]).1 PaymentKey.total = 1234 := by decide

example :
    (summarizePayments
      [("売上高（税込み）", Cell.text "¥1,234"), ("PayPay", Cell.num 500),
       ("組数", Cell.num 10)]).2 = [] := by decide

/-! ## Product classification claim theorems -/

/-- C2: a product row that reaches and fires the course rule (course
keyword in the name or reservation keyword in the category, no earlier
rule fired) changes nothing but the course-booking list, to which exactly
one entry is appended with the price and headcount extraction of the
source — in particular no ramen plain or set count changes even if the
name also carries a ramen-variant keyword. -/
theorem course_rows_only_course (acc : ProdAcc) (row : Row)
    (hcount : firstByCandidates row productQtyCands ≠ 0)
    (hexcl : testExcluded (firstKeyStr row productNameCands) = false)
    (hforce : (testForceAmbigHanaGekka (firstKeyStr row productNameCands) &&
               testSetWord (firstKeyStr row productNameCands)) = false)
    (hyoku : testYokubariCurry (firstKeyStr row productNameCands) = false)
    (hpatty : testPattyCurry (firstKeyStr row productNameCands) = false)
    (hcourse : testCourse (firstKeyStr row productNameCands)
               (firstKeyStr row productCategoryCands) = true) :
    stepProduct acc row =
      { acc with coursePeople := acc.coursePeople ++
          [courseEntryOf (firstKeyStr row productNameCands)
            (firstByCandidates row productQtyCands)] } ∧
    (stepProduct acc row).totals = acc.totals ∧
    (stepProduct acc row).setTotals = acc.setTotals := by
  have hmain : stepProduct acc row =
      { acc with coursePeople := acc.coursePeople ++
          [courseEntryOf (firstKeyStr row productNameCands)
            (firstByCandidates row productQtyCands)] } := by
    simp [stepProduct, hcount, hexcl, hforce, hyoku, hpatty, hcourse]
  exact ⟨hmain, by rw [hmain], by rw [hmain]⟩

/-- Witness for C2 at a concrete dinner-course row with a price and a
headcount in the name. -/
theorem course_rows_only_course_witness :
    (stepProduct emptyProdAcc
        [("商品名", Cell.text "ディナーコース10000円（3名様）"), ("数量", Cell.num 2)]).coursePeople =
      [⟨"ディナー", 10000, 3⟩] ∧
    (stepProduct emptyProdAcc
        [("商品名", Cell.text "ディナーコース10000円（3名様）"), ("数量", Cell.num 2)]).totals =
      emptyProdAcc.totals := by
  have h := course_rows_only_course emptyProdAcc
    [("商品名", Cell.text "ディナーコース10000円（3名様）"), ("数量", Cell.num 2)]
    (by decide) (by decide) (by decide) (by decide) (by decide) (by decide)
  refine ⟨?_, h.2.1⟩
  rw [h.1]
  decide

/-- Amended C4: rows whose resolved quantity is missing or zero (both
resolve to 0) are skipped before any other classification rule; rows with
a negative quantity are not skipped. -/
theorem zero_quantity_skipped (acc : ProdAcc) (row : Row)
    (h : firstByCandidates row productQtyCands = 0) :
    stepProduct acc row = acc := by
  simp [stepProduct, h]

/-- Witness for the amended C4: a row with a non-numeric quantity cell is
skipped whatever its name says. -/
theorem zero_quantity_skipped_witness :
    stepProduct emptyProdAcc [("商品名", Cell.text "花"), ("数量", Cell.text "abc")] =
      emptyProdAcc :=
  zero_quantity_skipped emptyProdAcc
    [("商品名", Cell.text "花"), ("数量", Cell.text "abc")] (by decide)

/-- Counterexample to C4 as stated: a row with quantity minus one is not
skipped — it falls through to variant detection and subtracts one from the
hana plain count, so non-positive quantities do contribute. -/
theorem negative_quantity_not_skipped :
    (stepProduct emptyProdAcc [("商品名", Cell.text "花"), ("数量", Cell.num (-1))]).totals
      RamenKey.hana = -1 := by
  have hname : firstKeyStr [("商品名", Cell.text "花"), ("数量", Cell.num (-1))]
      productNameCands = "花" := by decide
  have hqty : firstByCandidates [("商品名", Cell.text "花"), ("数量", Cell.num (-1))]
      productQtyCands = -1 := by decide
  have hcat : firstKeyStr [("商品名", Cell.text "花"), ("数量", Cell.num (-1))]
      productCategoryCands = "" := by decide
  have h1 : testExcluded "花" = false := by decide
  have h2 : (testForceAmbigHanaGekka "花" && testSetWord "花") = false := by decide
  have h3 : testYokubariCurry "花" = false := by decide
  have h4 : testPattyCurry "花" = false := by decide
  have h5 : testCourse "花" "" = false := by decide
  have h6 : guessRamenKey "花" = some RamenKey.hana := by decide
  have h7 : testSetMarker "花" "" = false := by decide
  simp only [stepProduct, hname, hqty, hcat, h1, h2, h3, h4, h5, h6, h7]
  norm_num [emptyProdAcc]

/-! ## Variant detection claim theorems -/

/-- Prefix tests survive a character map that fixes the pattern. -/
theorem isPrefixOf_map_fixed (f : Char → Char) :
    ∀ (pat l : List Char), pat.isPrefixOf l = true → (∀ c ∈ pat, f c = c) →
      pat.isPrefixOf (l.map f) = true := by
  intro pat
  induction pat with
  | nil => intro l _ _; simp [List.isPrefixOf]
  | cons p ps ih =>
    intro l h hf
    cases l with
    | nil => simp [List.isPrefixOf] at h
    | cons c r =>
      simp only [List.isPrefixOf, List.map_cons, Bool.and_eq_true, beq_iff_eq] at h ⊢
      obtain ⟨hpc, hrest⟩ := h
      subst hpc
      refine ⟨(hf p (List.mem_cons_self _ _)).symm, ?_⟩
      exact ih r hrest (fun c hc => hf c (List.mem_cons_of_mem _ hc))

/-- Substring tests survive a character map that fixes the pattern. -/
theorem infixHere_map_fixed (f : Char → Char) (pat : List Char)
    (hf : ∀ c ∈ pat, f c = c) :
    ∀ l : List Char, infixHere pat l = true → infixHere pat (l.map f) = true := by
  intro l
  induction l with
  | nil => intro h; simpa [infixHere] using h
  | cons c r ih =>
    intro h
    simp only [infixHere, List.map_cons, Bool.or_eq_true] at h ⊢
    rcases h with h | h
    · exact Or.inl (by
        have := isPrefixOf_map_fixed f pat (c :: r) h hf
        simpa using this)
    · exact Or.inr (ih h)

/-- A raw-name substring that lowercasing fixes is still a substring of
the lowercased name. -/
theorem containsSub_lower_of_fixed (pat name : String)
    (hf : ∀ c ∈ pat.data, asciiLower c = c)
    (h : containsSub pat name.data = true) :
    containsSub pat (lowerChars name) = true := by
  unfold containsSub at h ⊢
  unfold lowerChars
  exact infixHere_map_fixed asciiLower pat.data hf name.data h

/-- Amended C7: a name containing the three-character compound always
detects it; a name containing the two-character compound detects it
provided the name does not match the three-character pattern (which also
fires on the romaji alias); likewise for the remaining two-character
compound below both longer patterns. Components are never detected in
those cases. -/
theorem compound_detection_amended (name : String) :
    (containsSub "雪月花" name.data = true →
      guessRamenKey name = some RamenKey.setsugekka) ∧
    (containsSub "雪月" name.data = true →
      testSetsugekkaPat (lowerChars name) = false →
      guessRamenKey name = some RamenKey.setsugetsu) ∧
    (containsSub "月花" name.data = true →
      testSetsugekkaPat (lowerChars name) = false →
      testSetsugetsuPat (lowerChars name) = false →
      guessRamenKey name = some RamenKey.gekka) := by
  refine ⟨?_, ?_, ?_⟩
  · intro h
    have h2 : containsSub "雪月花" (lowerChars name) = true :=
      containsSub_lower_of_fixed _ _ (by decide) h
    have hp : testSetsugekkaPat (lowerChars name) = true := by
      unfold testSetsugekkaPat
      rw [h2]
      rfl
    simp [guessRamenKey, hp]
  · intro h hk
    have h2 : containsSub "雪月" (lowerChars name) = true :=
      containsSub_lower_of_fixed _ _ (by decide) h
    have hp : testSetsugetsuPat (lowerChars name) = true := by
      unfold testSetsugetsuPat
      rw [h2]
      rfl
    simp [guessRamenKey, hk, hp]
  · intro h hk hs
    have h2 : containsSub "月花" (lowerChars name) = true :=
      containsSub_lower_of_fixed _ _ (by decide) h
    have hp : testGekkaPat (lowerChars name) = true := by
      unfold testGekkaPat
      rw [h2]
      rfl
    simp [guessRamenKey, hk, hs, hp]

/-- Witness for the amended C7 at three concrete names. -/
theorem compound_detection_amended_witness :
    guessRamenKey "特製雪月花ラーメン" = some RamenKey.setsugekka ∧
    guessRamenKey "雪月セット" = some RamenKey.setsugetsu ∧
    guessRamenKey "月花（大盛）" = some RamenKey.gekka :=
  ⟨(compound_detection_amended "特製雪月花ラーメン").1 (by decide),
   (compound_detection_amended "雪月セット").2.1 (by decide) (by decide),
   (compound_detection_amended "月花（大盛）").2.2 (by decide) (by decide) (by decide)⟩

/-- Counterexample to C7 as stated: a name containing the two-character
compound and not containing the three-character compound can still detect
the three-character variant, because the first pattern also fires on its
romaji alias. -/
theorem compound_detection_cex :
    containsSub "雪月" "雪月setsugekka".data = true ∧
    containsSub "雪月花" "雪月setsugekka".data = false ∧
    guessRamenKey "雪月setsugekka" = some RamenKey.setsugekka ∧
    guessRamenKey "雪月setsugekka" ≠ some RamenKey.setsugetsu := by
  refine ⟨by decide, by decide, by decide, by decide⟩

/-! ## Renderer helper lemmas -/

/-- An append with a non-empty right part is non-empty. -/
theorem append_ne_of_right (a b : String) (h : b ≠ "") : a ++ b ≠ "" := by
  intro hc
  apply h
  have hd := congrArg String.data hc
  rw [String.data_append] at hd
  have hb : b.data = [] := (List.append_eq_nil.mp hd).2
  cases b
  simp_all

/-- An append with a non-empty left part is non-empty. -/
theorem append_ne_of_left (a b : String) (h : a ≠ "") : a ++ b ≠ "" := by
  intro hc
  apply h
  have hd := congrArg String.data hc
  rw [String.data_append] at hd
  have hb : a.data = [] := (List.append_eq_nil.mp hd).1
  cases a
  simp_all

/-- Rendered currency strings always carry the yen sign. -/
theorem jpCurrency_ne (q : ℚ) : jpCurrency q ≠ "" := by
  unfold jpCurrency
  exact append_ne_of_left _ _ (by decide)

/-- The date label is never the empty line, on any input. -/
theorem jpDateLabel_ne (s : String) : jpDateLabel s ≠ "" := by
  unfold jpDateLabel
  cases hp : parseISODate s with
  | none => decide
  | some ymd =>
    obtain ⟨y, m, d⟩ := ymd
    exact append_ne_of_right _ _ (by decide)

/-- Every payment section line is non-empty. -/
theorem paymentLines_ne (meta : MetaState) : ∀ x ∈ paymentLinesOf meta, x ≠ "" := by
  intro x hx
  unfold paymentLinesOf at hx
  rcases List.mem_append.mp hx with h | h
  · obtain ⟨k, _, hk⟩ := List.mem_filterMap.mp h
    split at hk
    · cases hk
      exact append_ne_of_right _ _ (jpCurrency_ne _)
    · exact absurd hk (by simp)
  · obtain ⟨op, _, hk⟩ := List.mem_filterMap.mp h
    split at hk
    · cases hk
      exact append_ne_of_right _ _ (jpCurrency_ne _)
    · exact absurd hk (by simp)

/-- Every group or people line is non-empty. -/
theorem gpLines_ne (meta : MetaState) : ∀ x ∈ gpLinesOf meta, x ≠ "" := by
  intro x hx
  unfold gpLinesOf at hx
  rcases List.mem_append.mp hx with h | h <;> split at h <;>
    simp only [List.mem_singleton, List.not_mem_nil] at h
  · subst h; exact append_ne_of_right _ _ (by decide)
  · subst h; exact append_ne_of_right _ _ (by decide)

/-- A rendered variant line is never empty. -/
theorem ramenVariantLine_ne (t s c : RamenKey → ℚ) (k : RamenKey) (x : String)
    (h : ramenVariantLine t s c k = some x) : x ≠ "" := by
  simp only [ramenVariantLine] at h
  by_cases ht : t k + s k + c k ≤ 0
  · rw [if_pos ht] at h
    exact absurd h (by simp)
  · rw [if_neg ht] at h
    have hx := Option.some.inj h
    subst hx
    exact append_ne_of_left _ _ (append_ne_of_right _ _ (by decide))

/-- Every ramen section line is non-empty. -/
theorem ramenLines_ne (t s c : RamenKey → ℚ) : ∀ x ∈ ramenLinesOf t s c, x ≠ "" := by
  intro x hx
  unfold ramenLinesOf at hx
  rcases List.mem_cons.mp hx with h | h
  · subst h; exact append_ne_of_right _ _ (by decide)
  · obtain ⟨k, _, hk⟩ := List.mem_filterMap.mp h
    exact ramenVariantLine_ne t s c k x hk

/-- The ramen section, when rendered, always has its header line. -/
theorem ramenLines_ne_nil (t s c : RamenKey → ℚ) : ramenLinesOf t s c ≠ [] := by
  unfold ramenLinesOf
  exact List.cons_ne_nil _ _

/-- Every side-dish line is non-empty. -/
theorem sideLines_ne (meta : MetaState) : ∀ x ∈ sideLinesOf meta, x ≠ "" := by
  intro x hx
  unfold sideLinesOf at hx
  rcases List.mem_append.mp hx with h | h <;> split at h <;>
    simp only [List.mem_singleton, List.not_mem_nil] at h
  · subst h; exact append_ne_of_right _ _ (by decide)
  · subst h; exact append_ne_of_right _ _ (by decide)

/-- Every course-booking line is non-empty. -/
theorem courseLines_ne (cp : List CoursePeopleEntry) : ∀ x ∈ courseLinesOf cp, x ≠ "" := by
  intro x hx
  unfold courseLinesOf at hx
  obtain ⟨e, _, hk⟩ := List.mem_filterMap.mp hx
  split at hk
  · exact absurd hk (by simp)
  · cases hk
    exact append_ne_of_right _ _ (by decide)

/-- The unassigned notice line is non-empty. -/
theorem notice_ne (uc : ℕ) : unassignedNoticeOf uc ≠ "" := by
  unfold unassignedNoticeOf
  exact append_ne_of_right _ _ (by decide)

/-- pushBlank appends one blank after a non-empty list not ending blank. -/
theorem pushBlankL_eq_append (l : List String) (h1 : l ≠ []) (h2 : l.getLast? ≠ some "") :
    pushBlankL l = l ++ [""] := by
  unfold pushBlankL
  cases hl : l.getLast? with
  | none => exact absurd (List.getLast?_eq_none_iff.mp hl) h1
  | some a =>
    have ha : a ≠ "" := fun he => h2 (he ▸ hl)
    simp [ha]

/-- pushBlank is the identity on a list already ending blank. -/
theorem pushBlankL_of_blank (l : List String) (h : l.getLast? = some "") : pushBlankL l = l := by
  unfold pushBlankL
  rw [h]
  simp

/-- A last element is a member. -/
theorem getLast?_some_mem {l : List String} {a : String} (h : l.getLast? = some a) : a ∈ l := by
  rcases List.mem_getLast?_eq_getLast (l := l) (x := a) (by rw [h]; rfl) with ⟨hne, he⟩
  exact he ▸ List.getLast_mem hne

/-- The head of an append with a non-empty left part. -/
theorem head?_append_left (l m : List String) (h : l ≠ []) : (l ++ m).head? = l.head? := by
  cases l with
  | nil => exact absurd rfl h
  | cons a r => simp

/-- A list of non-empty lines has no double blank. -/
theorem ndb_all_ne : ∀ l : List String, (∀ x ∈ l, x ≠ "") → noDoubleBlank l = true
  | [], _ => rfl
  | [_], _ => rfl
  | a :: b :: r, h => by
    have ha := h a (List.mem_cons_self _ _)
    simp only [noDoubleBlank, Bool.and_eq_true]
    refine ⟨by simp [ha], ndb_all_ne (b :: r) (fun x hx => h x (List.mem_cons_of_mem _ hx))⟩

/-- Appending non-empty lines preserves the double-blank freedom. -/
theorem ndb_append_all_ne : ∀ l m : List String, noDoubleBlank l = true →
    (∀ x ∈ m, x ≠ "") → noDoubleBlank (l ++ m) = true
  | [], m, _, hm => ndb_all_ne m hm
  | [a], m, _, hm => by
    cases m with
    | nil => rfl
    | cons b r =>
      have hb := hm b (List.mem_cons_self _ _)
      show noDoubleBlank (a :: b :: r) = true
      simp only [noDoubleBlank, Bool.and_eq_true]
      exact ⟨by simp [hb], ndb_all_ne (b :: r) hm⟩
  | a :: b :: l, m, h, hm => by
    simp only [noDoubleBlank, Bool.and_eq_true] at h
    simp only [List.cons_append, noDoubleBlank, Bool.and_eq_true]
    refine ⟨h.1, ?_⟩
    have := ndb_append_all_ne (b :: l) m h.2 hm
    simpa using this

/-- Appending one blank after a list not ending blank preserves the
double-blank freedom. -/
theorem ndb_append_blank : ∀ l : List String, noDoubleBlank l = true →
    l.getLast? ≠ some "" → noDoubleBlank (l ++ [""]) = true
  | [], _, _ => rfl
  | [a], _, h2 => by
    have ha : a ≠ "" := fun he => h2 (by rw [he]; rfl)
    show noDoubleBlank [a, ""] = true
    simp [noDoubleBlank, ha]
  | a :: b :: l, h, h2 => by
    simp only [noDoubleBlank, Bool.and_eq_true] at h
    simp only [List.cons_append, noDoubleBlank, Bool.and_eq_true]
    refine ⟨h.1, ?_⟩
    have hlast : (b :: l).getLast? ≠ some "" := by
      rwa [List.getLast?_cons_cons] at h2
    have := ndb_append_blank (b :: l) h.2 hlast
    simpa using this

/-- One step of the specification join: skip an empty section, otherwise
separate with exactly one blank line. -/
def specStep (acc sec : List String) : List String :=
  if sec.isEmpty then acc else acc ++ [""] ++ sec

/-- On a non-empty accumulator the folding step of joinSectionsSpec is
specStep. -/
theorem foldl_join_eq_specStep (rest : List (List String)) :
    ∀ acc : List String, acc ≠ [] →
      rest.foldl (fun acc sec =>
        if sec.isEmpty then acc
        else if acc.isEmpty then sec
        else acc ++ [""] ++ sec) acc = rest.foldl specStep acc := by
  induction rest with
  | nil => intro acc _; rfl
  | cons sec r ih =>
    intro acc hacc
    have haccE : acc.isEmpty = false := by
      cases acc with
      | nil => exact absurd rfl hacc
      | cons x xs => rfl
    rw [List.foldl_cons, List.foldl_cons]
    have hstep : (if sec.isEmpty then acc
        else if acc.isEmpty then sec
        else acc ++ [""] ++ sec) = specStep acc sec := by
      unfold specStep
      by_cases hs : sec.isEmpty = true
      · simp [hs]
      · simp [hs, haccE]
    rw [hstep]
    apply ih
    unfold specStep
    by_cases hs : sec.isEmpty = true
    · simpa [hs] using hacc
    · simp [hs]

/-- joinSectionsSpec of a non-empty first section is a specStep fold. -/
theorem joinSectionsSpec_cons (first : List String) (rest : List (List String))
    (h : first ≠ []) :
    joinSectionsSpec (first :: rest) = rest.foldl specStep first := by
  unfold joinSectionsSpec
  rw [List.foldl_cons]
  have hfe : first.isEmpty = false := by
    cases first with
    | nil => exact absurd rfl h
    | cons x xs => rfl
  have h0 : (if first.isEmpty then ([] : List String)
      else if ([] : List String).isEmpty then first
      else [] ++ [""] ++ first) = first := by
    simp [hfe]
  rw [h0]
  exact foldl_join_eq_specStep rest first h

/-- Invariant carried between renderer sections: non-empty, head and last
lines non-blank, no double blank anywhere. -/
def StageInv (acc : List String) : Prop :=
  acc ≠ [] ∧ acc.head? ≠ some "" ∧ acc.getLast? ≠ some "" ∧ noDoubleBlank acc = true

/-- One renderer section step equals the specification step and preserves
the invariant and the head line. -/
theorem stage_full (acc sec : List String) (hinv : StageInv acc)
    (hsec : ∀ x ∈ sec, x ≠ "") :
    renderStage acc sec = specStep acc sec ∧
    StageInv (specStep acc sec) ∧
    (specStep acc sec).head? = acc.head? := by
  unfold renderStage
  obtain ⟨h1, h2, h3, h4⟩ := hinv
  by_cases hs : sec.isEmpty = true
  · refine ⟨by simp [hs, specStep], ?_, by simp [hs, specStep]⟩
    unfold specStep
    rw [if_pos hs]
    exact ⟨h1, h2, h3, h4⟩
  · have hsne : sec ≠ [] := by
      cases sec with
      | nil => simp at hs
      | cons x xs => simp
    have hsE : sec.isEmpty = false := by simpa using hs
    have hpb := pushBlankL_eq_append acc h1 h3
    have hform : specStep acc sec = acc ++ [""] ++ sec := by
      unfold specStep
      rw [if_neg (by simp [hsE])]
    refine ⟨?_, ⟨?_, ?_, ?_, ?_⟩, ?_⟩
    · rw [if_neg (by simp [hsE]), hpb, hform]
    · rw [hform]
      simp [hsne]
    · rw [hform, head?_append_left _ _ (by simp [h1]), head?_append_left _ _ h1]
      exact h2
    · rw [hform, List.append_assoc, List.getLast?_append_of_ne_nil _ (by simp [hsne])]
      rw [List.getLast?_append_of_ne_nil _ hsne]
      cases hgl : sec.getLast? with
      | none => simp
      | some a =>
        have ham : a ∈ sec := getLast?_some_mem hgl
        have := hsec a ham
        simp [this]
    · rw [hform]
      exact ndb_append_all_ne _ _ (ndb_append_blank acc h4 h3) hsec
    · rw [hform, List.append_assoc, head?_append_left _ _ h1]

/-- isEmpty characterisations. -/
theorem isEmpty_true_iff {α : Type} (l : List α) : l.isEmpty = true ↔ l = [] := by
  cases l <;> simp

/-- A specification step on a non-empty accumulator stays non-empty. -/
theorem specStep_ne (acc sec : List String) (h : acc ≠ []) : specStep acc sec ≠ [] := by
  unfold specStep
  by_cases hs : sec.isEmpty = true
  · simpa [hs] using h
  · simp [hs]

/-- A specification step on a non-empty accumulator keeps its head line. -/
theorem specStep_head? (acc sec : List String) (h : acc ≠ []) :
    (specStep acc sec).head? = acc.head? := by
  unfold specStep
  by_cases hs : sec.isEmpty = true
  · simp [hs]
  · rw [if_neg (by simp [hs]), List.append_assoc, head?_append_left _ _ h]

/-! ## The renderer structure theorem -/

/-- The renderer's seven sections, each possibly empty, in emission order. -/
def sectionsOf (meta : MetaState) (t s c : RamenKey → ℚ)
    (cp : List CoursePeopleEntry) (uc : ℕ) : List (List String) :=
  [[jpDateLabel meta.dateISO],
   paymentLinesOf meta,
   gpLinesOf meta,
   if 0 < ramenTotalCountOf t s c then ramenLinesOf t s c else [],
   sideLinesOf meta,
   courseLinesOf cp,
   if 0 < uc then [unassignedNoticeOf uc] else []]

/-- The one deviation of the renderer from the blank-line discipline: the
course section pushes its separating blank whenever the entry list is
non-empty, even when every entry is filtered out as non-positive; with no
notice line after it this blank trails the report. -/
def badCourseTail (cp : List CoursePeopleEntry) (uc : ℕ) : Bool :=
  !cp.isEmpty && (courseLinesOf cp).isEmpty && (uc == 0)

/-- Amended C9: the rendered lines are exactly the non-empty sections in
order, separated by exactly one blank line, with no leading blank and no
double blank; they carry a single trailing blank exactly when the course
list is non-empty, every course entry is filtered out, and no
unassigned-notice follows. -/
theorem render_blank_discipline (meta : MetaState) (t s c : RamenKey → ℚ)
    (cp : List CoursePeopleEntry) (uc : ℕ) :
    renderLines meta t s c cp uc =
      joinSectionsSpec (sectionsOf meta t s c cp uc) ++
        (if badCourseTail cp uc then [""] else []) ∧
    (renderLines meta t s c cp uc).head? = some (jpDateLabel meta.dateISO) ∧
    jpDateLabel meta.dateISO ≠ "" ∧
    noDoubleBlank (renderLines meta t s c cp uc) = true ∧
    ((renderLines meta t s c cp uc).getLast? = some "" ↔ badCourseTail cp uc = true) := by
  have hD : jpDateLabel meta.dateISO ≠ "" := jpDateLabel_ne _
  set D := jpDateLabel meta.dateISO with hDdef
  set P := paymentLinesOf meta with hPdef
  set G := gpLinesOf meta with hGdef
  set R := ramenLinesOf t s c with hRdef
  set SD := sideLinesOf meta with hSDdef
  set CL := courseLinesOf cp with hCLdef
  set cnt := ramenTotalCountOf t s c with hcntdef
  set RS := (if 0 < cnt then R else ([] : List String)) with hRSdef
  set US := (if 0 < uc then [unassignedNoticeOf uc] else ([] : List String)) with hUSdef
  have inv1 : StageInv [D] := by
    refine ⟨List.cons_ne_nil _ _, ?_, ?_, rfl⟩
    · intro hc
      exact hD (Option.some.inj hc)
    · intro hc
      exact hD (Option.some.inj hc)
  have hPne : ∀ x ∈ P, x ≠ "" := hPdef ▸ paymentLines_ne meta
  have hGne : ∀ x ∈ G, x ≠ "" := hGdef ▸ gpLines_ne meta
  have hRSne : ∀ x ∈ RS, x ≠ "" := by
    rw [hRSdef]
    by_cases hr : 0 < cnt
    · rw [if_pos hr, hRdef]
      exact ramenLines_ne t s c
    · rw [if_neg hr]
      intro x hx
      exact absurd hx (List.not_mem_nil x)
  have hSDne : ∀ x ∈ SD, x ≠ "" := hSDdef ▸ sideLines_ne meta
  have hCLne : ∀ x ∈ CL, x ≠ "" := hCLdef ▸ courseLines_ne cp
  have hUSne : ∀ x ∈ US, x ≠ "" := by
    rw [hUSdef]
    by_cases hu : 0 < uc
    · rw [if_pos hu]
      intro x hx
      rw [List.mem_singleton.mp hx]
      exact notice_ne uc
    · rw [if_neg hu]
      intro x hx
      exact absurd hx (List.not_mem_nil x)
  obtain ⟨e2, inv2, hh2⟩ := stage_full [D] P inv1 hPne
  obtain ⟨e3, inv3, hh3⟩ := stage_full (specStep [D] P) G inv2 hGne
  obtain ⟨e4, inv4, hh4⟩ := stage_full (specStep (specStep [D] P) G) RS inv3 hRSne
  obtain ⟨e5, inv5, hh5⟩ :=
    stage_full (specStep (specStep (specStep [D] P) G) RS) SD inv4 hSDne
  set A3 := specStep (specStep [D] P) G with hA3def
  set A4 := specStep A3 RS with hA4def
  set A5 := specStep A4 SD with hA5def
  have e4' : (if 0 < cnt then pushBlankL A3 ++ R else A3) = renderStage A3 RS := by
    by_cases hr : 0 < cnt
    · rw [if_pos hr]
      have hRSR : RS = R := by rw [hRSdef, if_pos hr]
      have hRne : R.isEmpty = false := by
        rw [hRdef]
        cases hcase : ramenLinesOf t s c with
        | nil => exact absurd hcase (ramenLines_ne_nil t s c)
        | cons a l => rfl
      unfold renderStage
      rw [hRSR, if_neg (by simp [hRne])]
    · rw [if_neg hr]
      have hRSnil : RS = [] := by rw [hRSdef, if_neg hr]
      unfold renderStage
      rw [hRSnil]
      simp
  have hl5 : renderStage (if 0 < cnt then
      pushBlankL (renderStage (renderStage [D] P) G) ++ R
      else renderStage (renderStage [D] P) G) SD = A5 := by
    rw [e2, e3, e4', e4, e5]
  have hren : renderLines meta t s c cp uc =
      (if 0 < uc then
        pushBlankL (if cp.isEmpty then A5 else pushBlankL A5 ++ CL) ++ [unassignedNoticeOf uc]
       else (if cp.isEmpty then A5 else pushBlankL A5 ++ CL)) := by
    show (if 0 < uc then
        pushBlankL (if cp.isEmpty then
            renderStage (if 0 < cnt then
              pushBlankL (renderStage (renderStage [D] P) G) ++ R
              else renderStage (renderStage [D] P) G) SD
          else pushBlankL (renderStage (if 0 < cnt then
              pushBlankL (renderStage (renderStage [D] P) G) ++ R
              else renderStage (renderStage [D] P) G) SD) ++ CL) ++ [unassignedNoticeOf uc]
       else (if cp.isEmpty then
            renderStage (if 0 < cnt then
              pushBlankL (renderStage (renderStage [D] P) G) ++ R
              else renderStage (renderStage [D] P) G) SD
          else pushBlankL (renderStage (if 0 < cnt then
              pushBlankL (renderStage (renderStage [D] P) G) ++ R
              else renderStage (renderStage [D] P) G) SD) ++ CL)) = _
    rw [hl5]
  have hjoin : joinSectionsSpec (sectionsOf meta t s c cp uc) =
      specStep (specStep A5 CL) US := by
    unfold sectionsOf
    rw [joinSectionsSpec_cons _ _ (List.cons_ne_nil _ _)]
    rfl
  obtain ⟨hA5ne, hA5head, hA5last, hA5ndb⟩ := inv5
  have hA5headD : A5.head? = some D := by
    rw [hh5, hh4, hh3, hh2]
    rfl
  rw [hren, hjoin]
  by_cases hcp : cp.isEmpty = true
  · -- no course entries at all
    have hCLnil : CL = [] := by
      rw [hCLdef, (isEmpty_true_iff cp).mp hcp]
      rfl
    have hbad : badCourseTail cp uc = false := by
      unfold badCourseTail
      rw [hcp]
      rfl
    have hstep6 : specStep A5 CL = A5 := by
      rw [hCLnil]
      rfl
    have hci : (if cp.isEmpty = true then A5 else pushBlankL A5 ++ CL) = A5 := if_pos hcp
    obtain ⟨e7, inv7, hh7⟩ := stage_full A5 US ⟨hA5ne, hA5head, hA5last, hA5ndb⟩ hUSne
    have e7x : (if 0 < uc then pushBlankL A5 ++ [unassignedNoticeOf uc] else A5) =
        renderStage A5 US := by
      by_cases hu : 0 < uc
      · rw [if_pos hu]
        unfold renderStage
        rw [hUSdef, if_pos hu]
        rfl
      · rw [if_neg hu]
        unfold renderStage
        rw [hUSdef, if_neg hu]
        rfl
    have htail : (if badCourseTail cp uc = true then [""] else ([] : List String)) = [] := by
      rw [hbad]
      simp
    rw [hci, e7x, e7, hstep6, htail, List.append_nil]
    obtain ⟨h7ne, h7head, h7last, h7ndb⟩ := inv7
    refine ⟨rfl, ?_, hD, h7ndb, ?_⟩
    · rw [hh7, hA5headD]
    · constructor
      · intro hc
        exact absurd hc h7last
      · intro hc
        rw [hbad] at hc
        exact absurd hc (by simp)
  · -- course list non-empty
    have hcpE : cp.isEmpty = false := by simpa using hcp
    have hci : (if cp.isEmpty = true then A5 else pushBlankL A5 ++ CL) =
        pushBlankL A5 ++ CL := if_neg (by simp [hcpE])
    rw [hci]
    by_cases hcl : CL.isEmpty = true
    · -- every course entry filtered out: the deviant branch
      have hCLnil : CL = [] := (isEmpty_true_iff CL).mp hcl
      have hpb5 : pushBlankL A5 = A5 ++ [""] := pushBlankL_eq_append A5 hA5ne hA5last
      have hstep6 : specStep A5 CL = A5 := by
        rw [hCLnil]
        rfl
      rw [hstep6, hCLnil, List.append_nil, hpb5]
      have hlast56 : (A5 ++ [""]).getLast? = some "" := by
        rw [List.getLast?_append_of_ne_nil _ (by simp)]
        rfl
      by_cases hu : 0 < uc
      · have hbad : badCourseTail cp uc = false := by
          unfold badCourseTail
          have hz : (uc == 0) = false := by
            cases uc with
            | zero => exact absurd hu (by simp)
            | succ n => rfl
          simp [hz]
        have hstep7 : specStep A5 US = (A5 ++ [""]) ++ [unassignedNoticeOf uc] := by
          unfold specStep
          rw [hUSdef, if_pos hu, if_neg (by simp)]
        have htail : (if badCourseTail cp uc = true then [""] else ([] : List String)) = [] := by
          rw [hbad]
          simp
        rw [if_pos hu, pushBlankL_of_blank _ hlast56, hstep7, htail, List.append_nil]
        refine ⟨rfl, ?_, hD, ?_, ?_⟩
        · rw [head?_append_left _ _ (by simp [hA5ne]), head?_append_left _ _ hA5ne, hA5headD]
        · exact ndb_append_all_ne _ _ (ndb_append_blank A5 hA5ndb hA5last)
            (by
              intro x hx
              rw [List.mem_singleton.mp hx]
              exact notice_ne uc)
        · rw [List.getLast?_append_of_ne_nil _ (by simp)]
          constructor
          · intro hc
            rw [List.getLast?_singleton] at hc
            exact absurd (Option.some.inj hc) (notice_ne uc)
          · intro hc
            rw [hbad] at hc
            exact absurd hc (by simp)
      · -- the trailing blank case
        have huc0 : uc = 0 := Nat.eq_zero_of_not_pos hu
        have hbad : badCourseTail cp uc = true := by
          unfold badCourseTail
          have hclRaw : (courseLinesOf cp).isEmpty = true := hCLdef ▸ hcl
          rw [hcpE, hclRaw, huc0]
          rfl
        have hstep7 : specStep A5 US = A5 := by
          unfold specStep
          rw [hUSdef, if_neg hu]
          rfl
        have htail : (if badCourseTail cp uc = true then [""] else ([] : List String)) =
            [""] := by
          rw [hbad]
          simp
        rw [if_neg hu, hstep7, htail]
        refine ⟨rfl, ?_, hD, ?_, ?_⟩
        · rw [head?_append_left _ _ hA5ne, hA5headD]
        · exact ndb_append_blank A5 hA5ndb hA5last
        · constructor
          · intro _
            exact hbad
          · intro _
            exact hlast56
    · -- normal course section
      have hCLE : CL.isEmpty = false := by simpa using hcl
      obtain ⟨e6, inv6, hh6⟩ := stage_full A5 CL ⟨hA5ne, hA5head, hA5last, hA5ndb⟩ hCLne
      have e6x : pushBlankL A5 ++ CL = renderStage A5 CL := by
        unfold renderStage
        rw [if_neg (by simp [hCLE])]
      obtain ⟨h6ne, h6head, h6last, h6ndb⟩ := inv6
      obtain ⟨e7, inv7, hh7⟩ := stage_full (specStep A5 CL) US
        ⟨h6ne, h6head, h6last, h6ndb⟩ hUSne
      have e7x : (if 0 < uc then
          pushBlankL (specStep A5 CL) ++ [unassignedNoticeOf uc] else specStep A5 CL) =
          renderStage (specStep A5 CL) US := by
        by_cases hu : 0 < uc
        · rw [if_pos hu]
          unfold renderStage
          rw [hUSdef, if_pos hu]
          rfl
        · rw [if_neg hu]
          unfold renderStage
          rw [hUSdef, if_neg hu]
          rfl
      have hbad : badCourseTail cp uc = false := by
        unfold badCourseTail
        have hclRaw : (courseLinesOf cp).isEmpty = false := hCLdef ▸ hCLE
        simp [hclRaw]
      have htail : (if badCourseTail cp uc = true then [""] else ([] : List String)) = [] := by
        rw [hbad]
        simp
      rw [e6x, e6, e7x, e7, htail, List.append_nil]
      obtain ⟨h7ne, h7head, h7last, h7ndb⟩ := inv7
      refine ⟨rfl, ?_, hD, h7ndb, ?_⟩
      · rw [hh7, hh6, hA5headD]
      · constructor
        · intro hc
          exact absurd hc h7last
        · intro hc
          rw [hbad] at hc
          exact absurd hc (by simp)

/-- Counterexample to C9 as stated: a report state whose course list holds
one entry with zero headcount (and nothing else to render after it) is
rendered with a trailing blank line, because the course section pushes its
separating blank before filtering the entries. -/
theorem render_trailing_blank_cex :
    (renderLines sampleMeta zeroT zeroT zeroT [⟨"コース", 0, 0⟩] 0).getLast? = some "" := by
  have hcnt : ramenTotalCountOf zeroT zeroT zeroT = 0 := by
    simp [ramenTotalCountOf, ramenKeyList, zeroT]
  simp only [renderLines, renderStage]
  rw [hcnt]
  decide

end SalesReport
